import Mathlib

/-!  Verification of the consumer/processor pipeline runtime (queue package)
and of the application bootstrap (app.go) of the z5labs bedrock repository.

The queue package's runtime implementation (Sequential, Pipe, construction
options) is not present among the sources, only its example tests; the
definitions in namespace `Queue` are therefore modelled from the spec, as
their doc comments state.  The definitions in namespace `Bedrock` embed
src/app.go directly.  -/

namespace Queue

/-- Modelled from the spec: the `queue` package's `Consumer` capability
(`Consume(ctx) -> (T, error)`, spec section 3): one call produces an item, a
cancellation-class error (graceful end-of-stream), or any other error. -/
inductive ConsumeResult (T E : Type) where
  | ok (item : T)
  | cancelled
  | failure (e : E)
  deriving DecidableEq, Repr

/-- Modelled from the spec (section 4.1): what one iteration of the consuming
loop observes: either the ambient context is found cancelled at the top of
the loop, or `Consume` returns a result.  A run of a deterministic consumer
is a finite script of such events. -/
inductive Step (T E : Type) where
  | ctxDone
  | consume (r : ConsumeResult T E)
  deriving DecidableEq, Repr

/-- The items successfully produced by a consumer script, in production
order. -/
def oks {T E : Type} : List (Step T E) → List T
  | [] => []
  | .consume (.ok t) :: rest => t :: oks rest
  | .ctxDone :: rest => oks rest
  | .consume .cancelled :: rest => oks rest
  | .consume (.failure _) :: rest => oks rest

/-- Modelled from the spec (section 4.1): the Sequential runtime's loop.
`proc` models `Process(ctx, t)` (`none` = success).  The accumulator holds
fully processed items in reverse order.  The result is `none` when the
finite script is exhausted with the run still in progress (the real loop
would still be blocked in `Consume`); otherwise it is the list of fully
processed items together with `Run`'s terminal error (`none` = nil):
cancellation at the loop top and a cancellation-class `Consume` error are
graceful terminals returning nil, any other `Consume` error and any
`Process` error terminate with that error verbatim. -/
def seqRunAux {T E : Type} (proc : T → Option E) :
    List (Step T E) → List T → Option (List T × Option E)
  | [], _ => none
  | .ctxDone :: _, acc => some (acc.reverse, none)
  | .consume .cancelled :: _, acc => some (acc.reverse, none)
  | .consume (.failure e) :: _, acc => some (acc.reverse, some e)
  | .consume (.ok t) :: rest, acc =>
    match proc t with
    | some e => some (acc.reverse, some e)
    | none => seqRunAux proc rest (t :: acc)

/-- Modelled from the spec (section 4.1): `Sequential(c, p, opts...).Run(ctx)`
on a consumer script. -/
def seqRun {T E : Type} (proc : T → Option E) (script : List (Step T E)) :
    Option (List T × Option E) :=
  seqRunAux proc script []

/-- The script of a deterministic consumer that produces the given items in
order. -/
def okScript {T E : Type} (ts : List T) : List (Step T E) :=
  ts.map fun t => .consume (.ok t)

theorem oks_append {T E : Type} (l1 l2 : List (Step T E)) :
    oks (l1 ++ l2) = oks l1 ++ oks l2 := by
  induction l1 with
  | nil => rfl
  | cons x rest ih =>
    match x with
    | .ctxDone => simpa [oks] using ih
    | .consume (.ok t) => simpa [oks] using ih
    | .consume .cancelled => simpa [oks] using ih
    | .consume (.failure e) => simpa [oks] using ih

theorem oks_okScript {T E : Type} (ts : List T) :
    oks (okScript (E := E) ts) = ts := by
  induction ts with
  | nil => rfl
  | cons t rest ih => simpa [okScript, oks] using ih

theorem mem_okScript {T E : Type} {x : Step T E} {ts : List T} :
    x ∈ okScript (E := E) ts ↔ ∃ t ∈ ts, x = Step.consume (.ok t) := by
  simp [okScript, eq_comm]

theorem mem_oks {T E : Type} {t : T} {l : List (Step T E)} :
    t ∈ oks l ↔ Step.consume (.ok t) ∈ l := by
  induction l with
  | nil => simp [oks]
  | cons x rest ih =>
    match x with
    | .ctxDone => simp [oks, ih]
    | .consume (.ok u) => simp [oks, ih, List.mem_cons, eq_comm]
    | .consume .cancelled => simp [oks, ih]
    | .consume (.failure e) => simp [oks, ih]

theorem seqRunAux_okScript {T E : Type} (proc : T → Option E) (ts : List T)
    (h : ∀ t ∈ ts, proc t = none) (rest : List (Step T E)) (acc : List T) :
    seqRunAux proc (okScript ts ++ rest) acc
      = seqRunAux proc rest (ts.reverse ++ acc) := by
  induction ts generalizing acc with
  | nil => simp [okScript]
  | cons t ts ih =>
    have ht : proc t = none := h t (by simp)
    have htail : ∀ u ∈ ts, proc u = none := fun u hu => h u (by simp [hu])
    simp only [okScript, List.map_cons, List.cons_append, seqRunAux, ht, List.append_eq]
    rw [show (List.map (fun u => Step.consume (E := E) (ConsumeResult.ok u)) ts)
          = okScript ts from rfl]
    rw [ih htail (t :: acc)]
    simp

theorem seqRunAux_processed_isPrefix {T E : Type} (proc : T → Option E) :
    ∀ (script : List (Step T E)) (acc ps : List T) (r : Option E),
      seqRunAux proc script acc = some (ps, r) →
      ∃ u, ps = acc.reverse ++ u ∧ u <+: oks script := by
  intro script
  induction script with
  | nil =>
    intro acc ps r h
    simp [seqRunAux] at h
  | cons st rest ih =>
    intro acc ps r h
    match st with
    | .ctxDone =>
      simp only [seqRunAux, Option.some.injEq, Prod.mk.injEq] at h
      exact ⟨[], by simp [h.1.symm], List.nil_prefix⟩
    | .consume .cancelled =>
      simp only [seqRunAux, Option.some.injEq, Prod.mk.injEq] at h
      exact ⟨[], by simp [h.1.symm], List.nil_prefix⟩
    | .consume (.failure e) =>
      simp only [seqRunAux, Option.some.injEq, Prod.mk.injEq] at h
      exact ⟨[], by simp [h.1.symm], List.nil_prefix⟩
    | .consume (.ok t) =>
      simp only [seqRunAux] at h
      cases hp : proc t with
      | some e =>
        rw [hp] at h
        simp only [Option.some.injEq, Prod.mk.injEq] at h
        exact ⟨[], by simp [h.1.symm], List.nil_prefix⟩
      | none =>
        rw [hp] at h
        obtain ⟨u, hu, hpre⟩ := ih (t :: acc) ps r h
        refine ⟨t :: u, ?_, ?_⟩
        · simpa using hu
        · simpa [oks] using hpre

/-- Modelled from the spec (section 5): the write-once first-error cell
shared by the producing task and the workers: the first writer wins and
later errors are dropped. -/
def recordErr {E : Type} (slot : Option E) (e : E) : Option E :=
  match slot with
  | none => some e
  | some e0 => some e0

/-- Modelled from the spec (sections 4.2 and 5): the coordination state of one
`Pipe(c, p, opts...).Run(ctx)` invocation: the remaining consumer script of
the producing task, whether the producing task has exited, the bounded
handoff queue, the items whose `Process` call is currently in flight (in
hand-off order), the fully processed items in completion order, the
write-once first-error cell, and the shared cancellable context's flag. -/
structure PipeState (T E : Type) where
  script : List (Step T E)
  producerDone : Bool
  queue : List T
  inflight : List T
  processed : List T
  firstErr : Option E
  cancelled : Bool
  deriving DecidableEq, Repr

/-- The state at the start of a `Pipe` run: nothing consumed, queued,
in flight or processed, no error recorded, context not cancelled. -/
def initState {T E : Type} (script : List (Step T E)) : PipeState T E :=
  ⟨script, false, [], [], [], none, false⟩

/-- Modelled from the spec (sections 4.2 and 5): one scheduling step of the
Pipe runtime with worker count `W` and handoff-queue capacity `cap`.
The producing task runs the same check-cancellation-then-Consume loop as
Sequential but hands items off to the bounded queue, blocking while the
queue is full (backpressure); a consumer failure is recorded in the
first-error cell and cancels the shared context; cancellation-class results
end the producing task gracefully.  Each of the `W` workers pulls the front
item of the queue (never when the shared context is cancelled) and calls
`Process`; a `Process` failure is recorded in the first-error cell and
cancels the shared context; a `Process` success appends the item to the
completion order.  Any in-flight `Process` call may finish at any time
(completion order across workers is not deterministic). -/
inductive PipeStep {T E : Type} (proc : T → Option E) (W cap : Nat) :
    PipeState T E → PipeState T E → Prop where
  | prodCtxDone (s : PipeState T E) :
      s.producerDone = false → s.cancelled = true →
      PipeStep proc W cap s { s with producerDone := true }
  | prodCtxEvent (s : PipeState T E) (rest : List (Step T E)) :
      s.producerDone = false → s.cancelled = false →
      s.script = Step.ctxDone :: rest →
      PipeStep proc W cap s
        { s with script := rest, producerDone := true, cancelled := true }
  | prodCancel (s : PipeState T E) (rest : List (Step T E)) :
      s.producerDone = false → s.cancelled = false →
      s.script = Step.consume .cancelled :: rest →
      PipeStep proc W cap s { s with script := rest, producerDone := true }
  | prodFail (s : PipeState T E) (rest : List (Step T E)) (e : E) :
      s.producerDone = false → s.cancelled = false →
      s.script = Step.consume (.failure e) :: rest →
      PipeStep proc W cap s
        { s with script := rest, producerDone := true, cancelled := true,
                 firstErr := recordErr s.firstErr e }
  | prodHandoff (s : PipeState T E) (rest : List (Step T E)) (t : T) :
      s.producerDone = false → s.cancelled = false →
      s.script = Step.consume (.ok t) :: rest →
      s.queue.length < cap →
      PipeStep proc W cap s { s with script := rest, queue := s.queue ++ [t] }
  | workerTake (s : PipeState T E) (t : T) (q : List T) :
      s.cancelled = false → s.queue = t :: q → s.inflight.length < W →
      PipeStep proc W cap s { s with queue := q, inflight := s.inflight ++ [t] }
  | workerFinishOk (s : PipeState T E) (l1 l2 : List T) (t : T) :
      s.inflight = l1 ++ t :: l2 → proc t = none →
      PipeStep proc W cap s
        { s with inflight := l1 ++ l2, processed := s.processed ++ [t] }
  | workerFinishErr (s : PipeState T E) (l1 l2 : List T) (t : T) (e : E) :
      s.inflight = l1 ++ t :: l2 → proc t = some e →
      PipeStep proc W cap s
        { s with inflight := l1 ++ l2, cancelled := true,
                 firstErr := recordErr s.firstErr e }

/-- The states a `Pipe` run can pass through: the reflexive-transitive
closure of single scheduling steps. -/
abbrev Reaches {T E : Type} (proc : T → Option E) (W cap : Nat) :
    PipeState T E → PipeState T E → Prop :=
  Relation.ReflTransGen (PipeStep proc W cap)

/-- Modelled from the spec (section 4.2): `Run` returns exactly when the
producing task has exited, no `Process` call is in flight, and the handoff
queue is drained unless the shared context was cancelled (workers accept no
hand-off after cancellation); the value returned is the first-error cell
(`none` = nil). -/
def Terminal {T E : Type} (s : PipeState T E) : Prop :=
  s.producerDone = true ∧ s.inflight = [] ∧ (s.queue = [] ∨ s.cancelled = true)

theorem reaches_length_bounds {T E : Type} (proc : T → Option E) (W cap : Nat)
    (script : List (Step T E)) (s : PipeState T E)
    (h : Reaches proc W cap (initState script) s) :
    s.inflight.length ≤ W ∧ s.queue.length ≤ cap := by
  induction h with
  | refl => simp [initState]
  | tail hr hstep ih =>
    cases hstep with
    | prodCtxDone h1 h2 => simpa using ih
    | prodCtxEvent rest h1 h2 h3 => simpa using ih
    | prodCancel rest h1 h2 h3 => simpa using ih
    | prodFail rest e h1 h2 h3 => simpa using ih
    | prodHandoff rest t h1 h2 h3 h4 =>
      exact ⟨by simpa using ih.1, by simpa using h4⟩
    | workerTake t q h1 h2 h3 =>
      have hq := ih.2
      rw [h2] at hq
      simp only [List.length_cons] at hq
      refine ⟨by simpa using h3, ?_⟩
      show q.length ≤ cap
      omega
    | workerFinishOk l1 l2 t h1 h2 =>
      have hi := ih.1
      rw [h1] at hi
      simp only [List.length_append, List.length_cons] at hi
      refine ⟨?_, by simpa using ih.2⟩
      show (l1 ++ l2).length ≤ W
      simp only [List.length_append]
      omega
    | workerFinishErr l1 l2 t e h1 h2 =>
      have hi := ih.1
      rw [h1] at hi
      simp only [List.length_append, List.length_cons] at hi
      refine ⟨?_, by simpa using ih.2⟩
      show (l1 ++ l2).length ≤ W
      simp only [List.length_append]
      omega

theorem pipeStep_firstErr_keeps {T E : Type} {proc : T → Option E} {W cap : Nat}
    {s t : PipeState T E} (h : PipeStep proc W cap s t) (e : E)
    (he : s.firstErr = some e) : t.firstErr = some e := by
  cases h <;> simp [recordErr, he]

theorem reaches_firstErr_keeps {T E : Type} {proc : T → Option E} {W cap : Nat}
    {s t : PipeState T E} (h : Reaches proc W cap s t) (e : E)
    (he : s.firstErr = some e) : t.firstErr = some e := by
  induction h with
  | refl => exact he
  | tail hr hstep ih => exact pipeStep_firstErr_keeps hstep e ih

theorem terminal_no_step {T E : Type} {proc : T → Option E} {W cap : Nat}
    {s t : PipeState T E} (ht : Terminal s) : ¬ PipeStep proc W cap s t := by
  obtain ⟨hd, hi, hq⟩ := ht
  intro h
  cases h with
  | prodCtxDone h1 h2 => simp [hd] at h1
  | prodCtxEvent rest h1 h2 h3 => simp [hd] at h1
  | prodCancel rest h1 h2 h3 => simp [hd] at h1
  | prodFail rest e h1 h2 h3 => simp [hd] at h1
  | prodHandoff rest t h1 h2 h3 h4 => simp [hd] at h1
  | workerTake t q h1 h2 h3 =>
    rcases hq with hq | hq
    · simp [hq] at h2
    · simp [hq] at h1
  | workerFinishOk l1 l2 t h1 h2 => rw [hi] at h1; simp at h1
  | workerFinishErr l1 l2 t e h1 h2 => rw [hi] at h1; simp at h1

theorem append_cons_eq_append_singleton {α : Type} {A : List α} {a b : α} :
    ∀ {l1 l2 : List α}, l1 ++ a :: l2 = A ++ [b] → a ∉ A →
      l1 = A ∧ a = b ∧ l2 = [] := by
  induction A with
  | nil =>
    intro l1 l2 h ha
    cases l1 with
    | nil =>
      simp only [List.nil_append] at h
      injection h with h1 h2
      exact ⟨rfl, h1, h2⟩
    | cons x l1 =>
      simp only [List.cons_append, List.nil_append] at h
      injection h with h1 h2
      exact absurd h2 (by simp)
  | cons c A ih =>
    intro l1 l2 h ha
    have hac : a ≠ c := fun hh => ha (hh ▸ List.mem_cons_self c A)
    have haA : a ∉ A := fun hh => ha (List.mem_cons_of_mem c hh)
    cases l1 with
    | nil =>
      simp only [List.nil_append, List.cons_append] at h
      injection h with h1 h2
      exact absurd h1 hac
    | cons x l1 =>
      simp only [List.cons_append] at h
      injection h with hx hrest
      obtain ⟨h1, h2, h3⟩ := ih hrest haA
      exact ⟨by rw [hx, h1], h2, h3⟩

/-- A consumer script that produces the given items and then reports
graceful, cancellation-class end-of-stream. -/
def gracefulScript {T E : Type} (ts : List T) : List (Step T E) :=
  okScript ts ++ [Step.consume .cancelled]

theorem mem_gracefulScript {T E : Type} {x : Step T E} {ts : List T} :
    x ∈ gracefulScript (E := E) ts ↔
      (∃ t ∈ ts, x = Step.consume (.ok t)) ∨ x = Step.consume .cancelled := by
  simp [gracefulScript, mem_okScript]

theorem seqRun_gracefulScript {T E : Type} (proc : T → Option E) (ts : List T)
    (h : ∀ t ∈ ts, proc t = none) :
    seqRun proc (gracefulScript ts) = some (ts, none) := by
  unfold seqRun gracefulScript
  rw [seqRunAux_okScript proc ts h _ []]
  simp [seqRunAux]

theorem okScript_append {T E : Type} (a b : List T) :
    okScript (E := E) (a ++ b) = okScript a ++ okScript b := by
  simp [okScript]

theorem oks_gracefulScript {T E : Type} (ts : List T) :
    oks (gracefulScript (E := E) ts) = ts := by
  rw [gracefulScript, oks_append, oks_okScript]
  simp [oks]

theorem seqRun_okScript_fail {T E : Type} (proc : T → Option E) (ps : List T)
    (t : T) (suffix : List T) (e : E) (tail : List (Step T E))
    (hps : ∀ p ∈ ps, proc p = none) (ht : proc t = some e) :
    seqRun proc (okScript (ps ++ t :: suffix) ++ tail) = some (ps, some e) := by
  unfold seqRun
  rw [okScript_append, List.append_assoc, seqRunAux_okScript proc ps hps _ []]
  simp only [okScript, List.map_cons, List.cons_append, seqRunAux, ht]
  simp

/-- The inductive invariant of a one-worker `Pipe` run on a graceful script,
in two phases.  Before any error (shared context not cancelled): the
producing task's consumed portion `pre` of the script accounts, in order,
for the processed items, then the in-flight item, then the queued items;
every processed item processed successfully; at most one `Process` call is
in flight; and the producing task exits only at the end of the script.
After the sole worker records a `Process` error (context cancelled): no
`Process` call is in flight any more and the processed items together with
the recorded first error are exactly the Sequential outcome on the same
script. -/
def PipeInvOne {T E : Type} (proc : T → Option E) (ts : List T)
    (s : PipeState T E) : Prop :=
  (s.cancelled = false ∧ s.firstErr = none ∧ s.inflight.length ≤ 1 ∧
    (∀ p ∈ s.processed, proc p = none) ∧
    ∃ pre, pre ++ s.script = gracefulScript (E := E) ts ∧
      s.processed ++ s.inflight ++ s.queue = oks pre ∧
      (s.producerDone = true → s.script = [])) ∨
  (s.cancelled = true ∧ s.inflight = [] ∧
    seqRun proc (gracefulScript ts) = some (s.processed, s.firstErr))

theorem consume_cancelled_not_mem_okScript {T E : Type} {ts : List T} :
    Step.consume (E := E) ConsumeResult.cancelled ∉ okScript (E := E) ts := by
  intro hmem
  rcases mem_okScript.1 hmem with ⟨t, _, ht⟩
  exact ConsumeResult.noConfusion (Step.consume.inj ht)

theorem mem_of_mem_consumed {T E : Type} {ts : List T} {x : Step T E}
    {pre rest : List (Step T E)} (hpre : pre ++ rest = gracefulScript (E := E) ts)
    (hx : x ∈ pre) :
    (∃ t ∈ ts, x = Step.consume (.ok t)) ∨ x = Step.consume .cancelled := by
  refine mem_gracefulScript.1 ?_
  rw [← hpre]
  exact List.mem_append_left _ hx

theorem pipeInvOne_step {T E : Type} {proc : T → Option E} {cap : Nat}
    {ts : List T} {s u : PipeState T E} (hstep : PipeStep proc 1 cap s u)
    (hinv : PipeInvOne proc ts s) : PipeInvOne proc ts u := by
  rcases hinv with ⟨hcan, herr, hlen, hnone, pre, hpre, hacct, hdone⟩ |
    ⟨hcan, hinfl, hseq⟩
  · cases hstep with
    | prodCtxDone h1 h2 =>
      rw [hcan] at h2
      exact Bool.noConfusion h2
    | prodCtxEvent rest h1 h2 h3 =>
      exfalso
      have hx : Step.ctxDone (T := T) (E := E) ∈ gracefulScript (E := E) ts := by
        rw [← hpre, h3]
        exact List.mem_append_right _ (List.mem_cons_self _ _)
      rcases mem_gracefulScript.1 hx with ⟨t, _, ht⟩ | ht <;>
        exact Step.noConfusion ht
    | prodFail rest e h1 h2 h3 =>
      exfalso
      have hx : Step.consume (E := E) (ConsumeResult.failure e)
          ∈ gracefulScript (E := E) ts := by
        rw [← hpre, h3]
        exact List.mem_append_right _ (List.mem_cons_self _ _)
      rcases mem_gracefulScript.1 hx with ⟨t, _, ht⟩ | ht <;>
        exact ConsumeResult.noConfusion (Step.consume.inj ht)
    | prodCancel rest h1 h2 h3 =>
      have heq : pre ++ Step.consume (E := E) ConsumeResult.cancelled :: rest
          = okScript ts ++ [Step.consume ConsumeResult.cancelled] := by
        rw [← h3, hpre, gracefulScript]
      obtain ⟨hp, -, hrest⟩ :=
        append_cons_eq_append_singleton heq consume_cancelled_not_mem_okScript
      refine Or.inl ⟨hcan, herr, hlen, hnone,
        pre ++ [Step.consume ConsumeResult.cancelled], ?_, ?_, ?_⟩
      · show (pre ++ [Step.consume ConsumeResult.cancelled]) ++ rest
          = gracefulScript ts
        rw [hrest]
        simp [hp, gracefulScript]
      · show s.processed ++ s.inflight ++ s.queue
          = oks (pre ++ [Step.consume ConsumeResult.cancelled])
        rw [oks_append, hacct]
        simp [oks]
      · intro _
        exact hrest
    | prodHandoff rest t h1 h2 h3 h4 =>
      refine Or.inl ⟨hcan, herr, hlen, hnone,
        pre ++ [Step.consume (ConsumeResult.ok t)], ?_, ?_, ?_⟩
      · show (pre ++ [Step.consume (ConsumeResult.ok t)]) ++ rest
          = gracefulScript ts
        rw [← hpre, h3]
        simp
      · show s.processed ++ s.inflight ++ (s.queue ++ [t])
          = oks (pre ++ [Step.consume (ConsumeResult.ok t)])
        rw [oks_append, ← hacct]
        simp [oks]
      · intro hh
        simp only [h1] at hh
        exact Bool.noConfusion hh
    | workerTake t q h1 h2 h3 =>
      have hnil : s.inflight = [] :=
        List.eq_nil_of_length_eq_zero (Nat.lt_one_iff.1 h3)
      refine Or.inl ⟨hcan, herr, ?_, hnone, pre, hpre, ?_, hdone⟩
      · show (s.inflight ++ [t]).length ≤ 1
        rw [hnil]
        simp
      · show s.processed ++ (s.inflight ++ [t]) ++ q = oks pre
        rw [← hacct, hnil, h2]
        simp
    | workerFinishOk l1 l2 t h1 h2 =>
      have hl : l1 = [] ∧ l2 = [] := by
        rw [h1] at hlen
        simp only [List.length_append, List.length_cons] at hlen
        exact ⟨List.eq_nil_of_length_eq_zero (by omega),
          List.eq_nil_of_length_eq_zero (by omega)⟩
      refine Or.inl ⟨hcan, herr, ?_, ?_, pre, hpre, ?_, hdone⟩
      · show (l1 ++ l2).length ≤ 1
        rw [hl.1, hl.2]
        simp
      · show ∀ p ∈ s.processed ++ [t], proc p = none
        intro p hp
        rcases List.mem_append.1 hp with hp | hp
        · exact hnone p hp
        · rw [List.mem_singleton.1 hp]
          exact h2
      · show (s.processed ++ [t]) ++ (l1 ++ l2) ++ s.queue = oks pre
        rw [← hacct, h1, hl.1, hl.2]
        simp
    | workerFinishErr l1 l2 t e h1 h2 =>
      have hl : l1 = [] ∧ l2 = [] := by
        rw [h1] at hlen
        simp only [List.length_append, List.length_cons] at hlen
        exact ⟨List.eq_nil_of_length_eq_zero (by omega),
          List.eq_nil_of_length_eq_zero (by omega)⟩
      have hacct2 : (s.processed ++ [t]) ++ s.queue = oks pre := by
        rw [← hacct, h1, hl.1, hl.2]
        simp
      have hpref1 : s.processed ++ [t] <+: oks pre := ⟨s.queue, hacct2⟩
      have hpref2 : oks pre <+: ts := by
        refine ⟨oks s.script, ?_⟩
        rw [← oks_append, hpre, oks_gracefulScript]
      obtain ⟨suffix, hsuf⟩ := hpref1.trans hpref2
      have hts2 : ts = s.processed ++ t :: suffix := by
        rw [← hsuf]
        simp
      refine Or.inr ⟨rfl, ?_, ?_⟩
      · show l1 ++ l2 = []
        rw [hl.1, hl.2]
        rfl
      · show seqRun proc (gracefulScript ts)
          = some (s.processed, recordErr s.firstErr e)
        rw [herr]
        show seqRun proc (gracefulScript ts) = some (s.processed, some e)
        rw [gracefulScript, hts2]
        exact seqRun_okScript_fail proc s.processed t suffix e _ hnone h2
  · cases hstep with
    | prodCtxDone h1 h2 =>
      exact Or.inr ⟨by simpa using hcan, by simpa using hinfl,
        by simpa using hseq⟩
    | prodCtxEvent rest h1 h2 h3 =>
      rw [hcan] at h2
      exact Bool.noConfusion h2
    | prodCancel rest h1 h2 h3 =>
      rw [hcan] at h2
      exact Bool.noConfusion h2
    | prodFail rest e h1 h2 h3 =>
      rw [hcan] at h2
      exact Bool.noConfusion h2
    | prodHandoff rest t h1 h2 h3 h4 =>
      rw [hcan] at h2
      exact Bool.noConfusion h2
    | workerTake t q h1 h2 h3 =>
      rw [hcan] at h1
      exact Bool.noConfusion h1
    | workerFinishOk l1 l2 t h1 h2 =>
      rw [hinfl] at h1
      exact absurd h1 (by simp)
    | workerFinishErr l1 l2 t e h1 h2 =>
      rw [hinfl] at h1
      exact absurd h1 (by simp)

theorem pipeInvOne_reaches {T E : Type} {proc : T → Option E} {cap : Nat}
    {ts : List T} {s : PipeState T E}
    (h : Reaches proc 1 cap (initState (gracefulScript ts)) s) :
    PipeInvOne proc ts s := by
  induction h with
  | refl =>
    exact Or.inl ⟨rfl, rfl, by simp [initState], by simp [initState],
      [], by simp [initState], by simp [initState, oks],
      by simp [initState]⟩
  | tail hr hstep ih => exact pipeInvOne_step hstep ih

theorem seqRunAux_fails_at {T E : Type} (proc : T → Option E) :
    ∀ (ts : List T) (k : Nat) (e : E) (rest : List (Step T E)) (acc : List T)
      (hk : k < ts.length),
      (∀ i, (hi : i < k) → proc (ts.get ⟨i, hi.trans hk⟩) = none) →
      proc (ts.get ⟨k, hk⟩) = some e →
      seqRunAux proc (okScript ts ++ rest) acc
        = some (acc.reverse ++ ts.take k, some e) := by
  intro ts
  induction ts with
  | nil =>
    intro k e rest acc hk
    exact absurd hk (by simp)
  | cons t ts ih =>
    intro k e rest acc hk hbefore hfail
    cases k with
    | zero =>
      have h0 : proc t = some e := hfail
      simp only [okScript, List.map_cons, List.cons_append, seqRunAux, h0]
      simp
    | succ k =>
      have h0 : proc t = none := hbefore 0 (Nat.succ_pos k)
      have hk' : k < ts.length := Nat.lt_of_succ_lt_succ hk
      have hb' : ∀ i, (hi : i < k) → proc (ts.get ⟨i, hi.trans hk'⟩) = none :=
        fun i hi => hbefore (i + 1) (Nat.succ_lt_succ hi)
      have hf' : proc (ts.get ⟨k, hk'⟩) = some e := hfail
      simp only [okScript, List.map_cons, List.cons_append, seqRunAux, h0,
        List.append_eq]
      rw [show (List.map (fun u => Step.consume (E := E) (ConsumeResult.ok u)) ts)
            = okScript ts from rfl]
      rw [ih k e rest (t :: acc) hk' hb' hf']
      simp

/-- Claim C1: for every finite sequence of items produced by a deterministic
Consumer, the Sequential runtime processes the items in exactly the order
they were produced: running on the script that produces `ts` and then ends
gracefully yields the processed-items trace `ts` itself (whatever follows
the terminal event is never consumed), and on any script whatsoever the
processed-items trace is an initial segment of the produced items in
production order. -/
theorem sequential_processes_in_production_order {T E : Type}
    (proc : T → Option E) (ts : List T) (hts : ∀ t ∈ ts, proc t = none) :
    (∀ rest : List (Step T E),
        seqRun proc (okScript ts ++ Step.consume .cancelled :: rest)
          = some (ts, none)) ∧
    (∀ (script : List (Step T E)) (ps : List T) (r : Option E),
        seqRun proc script = some (ps, r) → ps <+: oks script) := by
  constructor
  · intro rest
    unfold seqRun
    rw [seqRunAux_okScript proc ts hts _ []]
    simp [seqRunAux]
  · intro script ps r h
    obtain ⟨u, hu, hpre⟩ := seqRunAux_processed_isPrefix proc script [] ps r h
    simp only [List.reverse_nil, List.nil_append] at hu
    rw [hu]
    exact hpre

/-- Claim C1 witness: the three-item script is processed as `[1, 2, 3]`. -/
theorem sequential_processes_in_production_order_witness :
    seqRun (fun _ : Nat => (none : Option String))
        (okScript [1, 2, 3] ++ Step.consume .cancelled :: [])
      = some ([1, 2, 3], none) :=
  (sequential_processes_in_production_order
      (fun _ : Nat => (none : Option String)) [1, 2, 3] (fun _ _ => rfl)).1 []

/-- Claim C2: if `Process` fails with error `e` on the item at position `k`
(0-based) of a deterministic Consumer's production, the Sequential `Run`
returns exactly that error value, the items before position `k` are fully
processed, and no later item is processed. -/
theorem sequential_error_propagation_identity {T E : Type}
    (proc : T → Option E) (ts : List T) (k : Nat) (e : E)
    (rest : List (Step T E)) (hk : k < ts.length)
    (hbefore : ∀ i, (hi : i < k) → proc (ts.get ⟨i, hi.trans hk⟩) = none)
    (hfail : proc (ts.get ⟨k, hk⟩) = some e) :
    seqRun proc (okScript ts ++ rest) = some (ts.take k, some e) := by
  unfold seqRun
  rw [seqRunAux_fails_at proc ts k e rest [] hk hbefore hfail]
  simp

/-- Claim C2 witness: with `Process` failing on item 20 (position 1), the run
returns the error and exactly `[10]` was processed. -/
theorem sequential_error_propagation_identity_witness :
    seqRun (fun t : Nat => if t = 20 then some "boom" else (none : Option String))
        (okScript [10, 20, 30] ++ []) = some ([10], some "boom") := by
  have h := sequential_error_propagation_identity
      (fun t : Nat => if t = 20 then some "boom" else (none : Option String))
      [10, 20, 30] 1 "boom" [] (by decide)
      (by
        intro i hi
        cases i with
        | zero => rfl
        | succ n => exact absurd hi (by omega))
      (by rfl)
  simpa using h

/-- Claim C3: cancellation is a graceful terminal for the Sequential runtime:
whether the ambient context is found cancelled at the top of the loop or
`Consume` returns a cancellation-class error, `Run` stops and returns nil —
and since the loop checks cancellation before calling `Consume`, nothing
after the cancellation event is ever consumed (the result does not depend on
the remainder of the script). -/
theorem sequential_cancellation_returns_nil {T E : Type}
    (proc : T → Option E) (ts : List T) (hts : ∀ t ∈ ts, proc t = none) :
    (∀ rest : List (Step T E),
        seqRun proc (okScript ts ++ Step.ctxDone :: rest) = some (ts, none)) ∧
    (∀ rest : List (Step T E),
        seqRun proc (okScript ts ++ Step.consume .cancelled :: rest)
          = some (ts, none)) := by
  constructor <;>
    · intro rest
      unfold seqRun
      rw [seqRunAux_okScript proc ts hts _ []]
      simp [seqRunAux]

/-- Claim C3 witness: after context cancellation the run returns nil even
though the rest of the script holds a failing `Consume`. -/
theorem sequential_cancellation_returns_nil_witness :
    seqRun (fun _ : Nat => (none : Option String))
        (okScript [1, 2] ++ Step.ctxDone :: [Step.consume (.failure "x")])
      = some ([1, 2], none) :=
  (sequential_cancellation_returns_nil
      (fun _ : Nat => (none : Option String)) [1, 2] (fun _ _ => rfl)).1
    [Step.consume (.failure "x")]

theorem reaches_failFirst {T E : Type} (proc : T → Option E) (W cap : Nat)
    (e : E) (rest : List (Step T E)) (s : PipeState T E)
    (h : Reaches proc W cap (initState (Step.consume (.failure e) :: rest)) s) :
    s = initState (Step.consume (.failure e) :: rest) ∨
      s = ⟨rest, true, [], [], [], some e, true⟩ := by
  induction h with
  | refl => exact Or.inl rfl
  | tail hr hstep ih =>
    rcases ih with hb | hb
    · subst hb
      cases hstep with
      | prodCtxDone h1 h2 => simp [initState] at h2
      | prodCtxEvent rest1 h1 h2 h3 => simp [initState] at h3
      | prodCancel rest1 h1 h2 h3 => simp [initState] at h3
      | prodFail rest1 e1 h1 h2 h3 =>
        simp only [initState, List.cons.injEq, Step.consume.injEq,
          ConsumeResult.failure.injEq] at h3
        right
        rw [h3.1, h3.2]
        rfl
      | prodHandoff rest1 t h1 h2 h3 h4 => simp [initState] at h3
      | workerTake t q h1 h2 h3 => simp [initState] at h2
      | workerFinishOk l1 l2 t h1 h2 => simp [initState] at h1
      | workerFinishErr l1 l2 t e1 h1 h2 => simp [initState] at h1
    · subst hb
      cases hstep with
      | prodCtxDone h1 h2 => simp at h1
      | prodCtxEvent rest1 h1 h2 h3 => simp at h1
      | prodCancel rest1 h1 h2 h3 => simp at h1
      | prodFail rest1 e1 h1 h2 h3 => simp at h1
      | prodHandoff rest1 t h1 h2 h3 h4 => simp at h1
      | workerTake t q h1 h2 h3 => simp at h1
      | workerFinishOk l1 l2 t h1 h2 => simp at h1
      | workerFinishErr l1 l2 t e1 h1 h2 => simp at h1

/-- Claim C4: if the Consumer's first `Consume` call fails with a
non-cancellation error `e`, the Sequential `Run` returns `e` with no item
processed, and every terminal execution of the Pipe runtime (any worker
count, any queue capacity) also surfaces exactly `e` with no item
processed: `Process` is never invoked. -/
theorem first_consume_failure_propagates {T E : Type} (proc : T → Option E)
    (W cap : Nat) (e : E) (rest : List (Step T E)) :
    seqRun proc (Step.consume (.failure e) :: rest) = some ([], some e) ∧
    (∀ s : PipeState T E,
        Reaches proc W cap (initState (Step.consume (.failure e) :: rest)) s →
        Terminal s → s.firstErr = some e ∧ s.processed = []) := by
  refine ⟨rfl, ?_⟩
  intro s hr ht
  rcases reaches_failFirst proc W cap e rest s hr with h | h
  · exfalso
    have := ht.1
    rw [h] at this
    simp [initState] at this
  · rw [h]
    exact ⟨rfl, rfl⟩

/-- Claim C4 witness: a concrete terminal Pipe execution of the
immediately-failing consumer surfaces the error with nothing processed. -/
theorem first_consume_failure_propagates_witness :
    (⟨[], true, [], [], [], some "boom", true⟩
        : PipeState Nat String).firstErr = some "boom" ∧
    (⟨[], true, [], [], [], some "boom", true⟩
        : PipeState Nat String).processed = [] :=
  (first_consume_failure_propagates (fun _ : Nat => (none : Option String))
      1 1 "boom" []).2
    ⟨[], true, [], [], [], some "boom", true⟩
    (Relation.ReflTransGen.tail Relation.ReflTransGen.refl
      (PipeStep.prodFail _ [] "boom" rfl rfl rfl))
    ⟨rfl, rfl, Or.inr rfl⟩

/-- Claim C5 (amended): for every deterministic Consumer sequence that
produces its items and then ends with a cancellation-class `Consume` result,
every terminal execution of the Pipe runtime with
`maxConcurrentProcessors = 1` produces exactly the Sequential outcome on
that sequence: the same processed items in the same (production) order and
the same terminal error — whether the Processor succeeds on every item or
fails somewhere along the way. -/
theorem pipe_one_worker_matches_sequential {T E : Type} (proc : T → Option E)
    (cap : Nat) (ts : List T) (s : PipeState T E)
    (hr : Reaches proc 1 cap (initState (gracefulScript ts)) s)
    (ht : Terminal s) :
    seqRun proc (gracefulScript ts) = some (s.processed, s.firstErr) := by
  rcases pipeInvOne_reaches hr with
    ⟨hcan, herr, hlen, hnone, pre, hpre, hacct, hdone⟩ | ⟨-, -, hseq⟩
  · have hscr : s.script = [] := hdone ht.1
    have hpre2 : pre = gracefulScript ts := by
      rw [hscr, List.append_nil] at hpre
      exact hpre
    have hq : s.queue = [] := by
      rcases ht.2.2 with h | h
      · exact h
      · rw [hcan] at h
        exact absurd h (by simp)
    have hp : s.processed = ts := by
      have hx := hacct
      rw [ht.2.1, hq, hpre2, oks_gracefulScript] at hx
      simpa using hx
    have hts2 : ∀ t ∈ ts, proc t = none := by
      rw [← hp]
      exact hnone
    rw [herr, hp]
    exact seqRun_gracefulScript proc ts hts2
  · exact hseq

/-- Claim C5 witness: a complete one-worker Pipe execution of the graceful
two-item script whose Processor fails on item 2 finishes with processed
trace `[1]` and first error `"boom"` — exactly the Sequential outcome. -/
theorem pipe_one_worker_matches_sequential_witness :
    seqRun (fun t : Nat => if t = 2 then some "boom" else (none : Option String))
        (gracefulScript [1, 2]) = some ([1], some "boom") :=
  pipe_one_worker_matches_sequential
    (fun t : Nat => if t = 2 then some "boom" else (none : Option String))
    1 [1, 2]
    ⟨[Step.consume .cancelled], true, [], [], [1], some "boom", true⟩
    (Relation.ReflTransGen.tail
      (Relation.ReflTransGen.tail
        (Relation.ReflTransGen.tail
          (Relation.ReflTransGen.tail
            (Relation.ReflTransGen.tail
              (Relation.ReflTransGen.tail
                (Relation.ReflTransGen.tail Relation.ReflTransGen.refl
                  (PipeStep.prodHandoff (initState (gracefulScript [1, 2]))
                    [Step.consume (.ok 2), Step.consume .cancelled] 1
                    rfl rfl rfl (by decide)))
                (PipeStep.workerTake
                  ⟨[Step.consume (.ok 2), Step.consume .cancelled],
                    false, [1], [], [], none, false⟩ 1 [] rfl rfl (by decide)))
              (PipeStep.prodHandoff
                ⟨[Step.consume (.ok 2), Step.consume .cancelled],
                  false, [], [1], [], none, false⟩
                [Step.consume .cancelled] 2 rfl rfl rfl (by decide)))
            (PipeStep.workerFinishOk
              ⟨[Step.consume .cancelled], false, [2], [1], [], none, false⟩
              [] [] 1 rfl rfl))
          (PipeStep.workerTake
            ⟨[Step.consume .cancelled], false, [2], [], [1], none, false⟩
            2 [] rfl rfl (by decide)))
        (PipeStep.workerFinishErr
          ⟨[Step.consume .cancelled], false, [], [2], [1], none, false⟩
          [] [] 2 "boom" rfl rfl))
      (PipeStep.prodCtxDone
        ⟨[Step.consume .cancelled], false, [], [], [1], some "boom", true⟩
        rfl rfl))
    ⟨rfl, rfl, Or.inl rfl⟩

/-- Claim C5 counterexample: on the consumer script that produces item 1 and
then fails with a non-cancellation error, the Sequential runtime processes
`[1]`, while the one-worker Pipe runtime has a terminal execution that
processes nothing: the consumer failure cancels the shared context before
the worker has taken item 1 from the handoff queue, and the queued item is
dropped, so the processed items differ from Sequential's. -/
theorem pipe_one_worker_differs_from_sequential_on_failure :
    Reaches (fun _ : Nat => (none : Option String)) 1 1
        (initState [Step.consume (.ok 1), Step.consume (.failure "boom")])
        ⟨[], true, [1], [], [], some "boom", true⟩ ∧
    Terminal (⟨[], true, [1], [], [], some "boom", true⟩
        : PipeState Nat String) ∧
    (⟨[], true, [1], [], [], some "boom", true⟩
        : PipeState Nat String).processed = [] ∧
    seqRun (fun _ : Nat => (none : Option String))
        [Step.consume (.ok 1), Step.consume (.failure "boom")]
      = some ([1], some "boom") := by
  refine ⟨?_, ⟨rfl, rfl, Or.inr rfl⟩, rfl, rfl⟩
  exact Relation.ReflTransGen.tail
    (Relation.ReflTransGen.tail Relation.ReflTransGen.refl
      (PipeStep.prodHandoff _ [Step.consume (.failure "boom")] 1
        rfl rfl rfl (by decide)))
    (PipeStep.prodFail _ [] "boom" rfl rfl rfl)

/-- Claim C6: in every reachable state of a Pipe run with worker bound `W`
and handoff-queue capacity `cap`, at most `W` `Process` calls are in flight
and at most `cap` items sit in the handoff queue: the bound comes from the
fixed pool of `W` workers pulling from the bounded queue (a worker starts a
`Process` call only when fewer than `W` are in flight, and the producer
blocks once `cap` items are queued), not from spawning a task per item. -/
theorem pipe_concurrency_bound {T E : Type} (proc : T → Option E) (W cap : Nat)
    (script : List (Step T E)) (s : PipeState T E)
    (h : Reaches proc W cap (initState script) s) :
    s.inflight.length ≤ W ∧ s.queue.length ≤ cap :=
  reaches_length_bounds proc W cap script s h

/-- Claim C6 witness: after handing off and taking one item under `W = 1`,
`cap = 1`, the bounds hold in the reached state. -/
theorem pipe_concurrency_bound_witness :
    (⟨[], false, [], [5], [], none, false⟩
        : PipeState Nat String).inflight.length ≤ 1 ∧
    (⟨[], false, [], [5], [], none, false⟩
        : PipeState Nat String).queue.length ≤ 1 :=
  pipe_concurrency_bound (fun _ : Nat => (none : Option String)) 1 1
    [Step.consume (.ok 5)] ⟨[], false, [], [5], [], none, false⟩
    (Relation.ReflTransGen.tail
      (Relation.ReflTransGen.tail Relation.ReflTransGen.refl
        (PipeStep.prodHandoff _ [] 5 rfl rfl rfl (by decide)))
      (PipeStep.workerTake _ 5 [] rfl rfl (by decide)))

/-- Claim C7: a Pipe run produces exactly one terminal outcome after full
quiescence: a terminal state has the producing task exited and no worker's
`Process` call in flight (no task survives `Run`'s return), no further
scheduling step is possible from a terminal state, and the first-error cell
is write-once along any execution — once it holds an error, that very error
is the one surfaced. -/
theorem pipe_run_single_outcome_after_quiesce {T E : Type}
    (proc : T → Option E) (W cap : Nat) :
    (∀ s : PipeState T E, Terminal s →
        s.producerDone = true ∧ s.inflight = []) ∧
    (∀ s u : PipeState T E, Terminal s → ¬ PipeStep proc W cap s u) ∧
    (∀ (s u : PipeState T E) (e : E), Reaches proc W cap s u →
        s.firstErr = some e → u.firstErr = some e) :=
  ⟨fun _ hs => ⟨hs.1, hs.2.1⟩, fun _ _ hs => terminal_no_step hs,
    fun _ _ e hr he => reaches_firstErr_keeps hr e he⟩

/-- Claim C7 witness: a concrete terminal state is quiesced, admits no
further step, and keeps its recorded error along the (reflexive)
execution. -/
theorem pipe_run_single_outcome_after_quiesce_witness :
    ((⟨[], true, [], [], [], some "err", true⟩
        : PipeState Nat String).producerDone = true ∧
      (⟨[], true, [], [], [], some "err", true⟩
        : PipeState Nat String).inflight = []) ∧
    ¬ PipeStep (fun _ : Nat => (none : Option String)) 1 1
        ⟨[], true, [], [], [], some "err", true⟩ (initState []) ∧
    (⟨[], true, [], [], [], some "err", true⟩
        : PipeState Nat String).firstErr = some "err" :=
  ⟨(pipe_run_single_outcome_after_quiesce
      (fun _ : Nat => (none : Option String)) 1 1).1 _ ⟨rfl, rfl, Or.inr rfl⟩,
    (pipe_run_single_outcome_after_quiesce
      (fun _ : Nat => (none : Option String)) 1 1).2.1 _ _
      ⟨rfl, rfl, Or.inr rfl⟩,
    (pipe_run_single_outcome_after_quiesce
      (fun _ : Nat => (none : Option String)) 1 1).2.2 _ _ "err"
      Relation.ReflTransGen.refl rfl⟩

/-- Modelled from the spec (section 6): the construction options recognized by
the `Pipe` runtime that affect its configuration value (the logging sink is
orthogonal to the bound and is omitted: its absence falls back to a no-op
sink and it never affects control flow). -/
inductive PipeOption where
  | maxConcurrentProcessors (n : Int)
  deriving DecidableEq, Repr

/-- Modelled from the spec (section 7): configuration errors, rejected at
construction time, before `Run` is ever called. -/
inductive ConfigError where
  | invalidMaxConcurrentProcessors (n : Int)
  deriving DecidableEq, Repr

/-- Modelled from the spec (section 6): the implementation-defined default
worker bound used when `maxConcurrentProcessors` is not supplied; it is a
fixed finite value, never "unbounded and unguarded". -/
def defaultMaxConcurrentProcessors : Nat := 8

/-- Modelled from the spec (section 3): the immutable-after-construction
configuration of a `Pipe` runtime. -/
structure PipeConfig where
  maxConcurrentProcessors : Nat
  deriving DecidableEq, Repr

/-- Modelled from the spec (sections 6, 7 and 9): applying one construction
option to the configuration built so far; `maxConcurrentProcessors(n)` with
`n < 1` is a construction-time error. -/
def applyPipeOption (acc : Except ConfigError PipeConfig) (o : PipeOption) :
    Except ConfigError PipeConfig :=
  match acc, o with
  | .error e, _ => .error e
  | .ok cfg, .maxConcurrentProcessors n =>
    if n < 1 then .error (.invalidMaxConcurrentProcessors n)
    else .ok { cfg with maxConcurrentProcessors := n.toNat }

/-- Modelled from the spec (sections 6 and 7): validating the construction
options of `Pipe(c, p, opts...)`, starting from the finite default bound. -/
def buildPipeConfig (opts : List PipeOption) : Except ConfigError PipeConfig :=
  opts.foldl applyPipeOption (.ok ⟨defaultMaxConcurrentProcessors⟩)

theorem foldl_applyPipeOption_error (opts : List PipeOption) (e : ConfigError) :
    opts.foldl applyPipeOption (.error e) = .error e := by
  induction opts with
  | nil => rfl
  | cons o rest ih =>
    cases o with
    | maxConcurrentProcessors n => simpa [applyPipeOption] using ih

theorem foldl_applyPipeOption_invalid (opts : List PipeOption) :
    ∀ (cfg : PipeConfig) (n : Int),
      PipeOption.maxConcurrentProcessors n ∈ opts → n < 1 →
      ∃ m : Int, opts.foldl applyPipeOption (.ok cfg)
          = .error (.invalidMaxConcurrentProcessors m) ∧ m < 1 := by
  induction opts with
  | nil =>
    intro cfg n hmem
    exact absurd hmem (List.not_mem_nil _)
  | cons o rest ih =>
    intro cfg n hmem hn
    cases o with
    | maxConcurrentProcessors k =>
      by_cases hk : k < 1
      · refine ⟨k, ?_, hk⟩
        simp only [List.foldl_cons, applyPipeOption, if_pos hk]
        exact foldl_applyPipeOption_error rest _
      · rcases List.mem_cons.1 hmem with heq | htail
        · exact absurd (by injection heq with h; exact h ▸ hn) hk
        · simpa [applyPipeOption, if_neg hk] using
            ih { cfg with maxConcurrentProcessors := k.toNat } n htail hn

/-- Claim C8: constructing a Pipe runtime with `maxConcurrentProcessors(n)`
for any `n < 1` is rejected at construction time with a configuration error
(before `Run` is ever called), and construction without the option uses the
finite implementation-defined default bound, which is at least 1 — never an
unbounded configuration. -/
theorem pipe_rejects_invalid_bound_at_construction :
    (∀ (opts : List PipeOption) (n : Int),
        PipeOption.maxConcurrentProcessors n ∈ opts → n < 1 →
        ∃ m : Int, buildPipeConfig opts
            = .error (.invalidMaxConcurrentProcessors m) ∧ m < 1) ∧
    (buildPipeConfig [] = .ok ⟨defaultMaxConcurrentProcessors⟩ ∧
      1 ≤ defaultMaxConcurrentProcessors) := by
  refine ⟨?_, rfl, by decide⟩
  intro opts n hmem hn
  exact foldl_applyPipeOption_invalid opts _ n hmem hn

/-- Claim C8 witness: `maxConcurrentProcessors(0)` is rejected at
construction time. -/
theorem pipe_rejects_invalid_bound_at_construction_witness :
    ∃ m : Int, buildPipeConfig [PipeOption.maxConcurrentProcessors 0]
        = .error (.invalidMaxConcurrentProcessors m) ∧ m < 1 :=
  pipe_rejects_invalid_bound_at_construction.1
    [PipeOption.maxConcurrentProcessors 0] 0 (by simp) (by decide)

end Queue

namespace Bedrock

/-- Error values flowing through the bootstrap in src/app.go: a distinct
error created by `errors.New` (identified here by its message), the sentinel
`errNilRuntime` (src/app.go:136), and `panicError` (src/app.go:258) wrapping
a non-error panic value (modelled as a string). -/
inductive GoErr where
  | named (msg : String)
  | nilRuntime
  | panicError (v : String)
  deriving DecidableEq, Repr

/-- A value passed to Go `panic(...)` and returned by `recover()`: either an
error value or a non-error value (modelled as a string), mirroring the type
switch in `errRecover` (src/app.go:271). -/
inductive PanicValue where
  | errValue (e : GoErr)
  | nonErrValue (v : String)
  deriving DecidableEq, Repr

/-- `errRecover` (src/app.go:266-277): the deferred recovery handler.  Its
first argument is the value returned by `recover()` (`none` when no panic is
in progress), its second the current value of the named error return; the
result is the final value of the named error return: unchanged when there
was no panic, the panic value itself when it is an error, and a
`panicError` wrapping it otherwise. -/
def errRecover (recovered : Option PanicValue) (err : Option GoErr) :
    Option GoErr :=
  match recovered with
  | none => err
  | some (.errValue e) => some e
  | some (.nonErrValue v) => some (GoErr.panicError v)

/-- The outcome of calling a Go function that may return normally, return an
error, or panic. -/
inductive Outcome (A : Type) where
  | ok (a : A)
  | err (e : GoErr)
  | panicked (p : PanicValue)
  deriving DecidableEq, Repr

/-- A value implementing the `Runtime` interface (src/app.go:28), modelled by
the outcome its `Run(ctx)` method produces. -/
structure RuntimeM where
  runResult : Outcome Unit
  deriving DecidableEq, Repr

/-- A `RuntimeBuilder` (src/app.go:49), modelled by the outcome of its
`Build` call: `ok none` is Go's `(nil, nil)` (nil runtime, nil error),
`ok (some rt)` a successful build, `err e` the `(nil, e)` error path, and
`panicked p` a panicking builder. -/
abbrev BuilderM : Type := Outcome (Option RuntimeM)

/-- The runtime-building loop of `PreRunE` (src/app.go:168-177): build each
runtime in order; a builder error aborts with that error; a `(nil, nil)`
result aborts with `errNilRuntime` before `Run` could ever be invoked on the
nil runtime; a panic propagates out of the loop (to the deferred
`errRecover`). -/
def buildRuntimes : List BuilderM → Outcome (List RuntimeM)
  | [] => .ok []
  | .panicked p :: _ => .panicked p
  | .err e :: _ => .err e
  | .ok none :: _ => .err GoErr.nilRuntime
  | .ok (some rt) :: rest =>
    match buildRuntimes rest with
    | .ok rts => .ok (rt :: rts)
    | .err e => .err e
    | .panicked p => .panicked p

/-- `PreRunE` (src/app.go:142-180) for an app with no config source and the
default no-op otel initializer (whose `Init` succeeds): the building loop
guarded by `defer errRecover(&err)`.  Returns the named error return and the
`rs` slice used by `RunE`. -/
def preRunE (builders : List BuilderM) : Option GoErr × List RuntimeM :=
  match buildRuntimes builders with
  | .ok rts => (errRecover none none, rts)
  | .err e => (errRecover none (some e), [])
  | .panicked p => (errRecover (some p) none, [])

/-- One `Run` invocation guarded by `defer errRecover(&e)` — the body of the
single-runtime call in `RunE` and of each errgroup goroutine
(src/app.go:188, 194-197). -/
def runRecovered (o : Outcome Unit) : Option GoErr :=
  match o with
  | .ok _ => errRecover none none
  | .err e => errRecover none (some e)
  | .panicked p => errRecover (some p) none

/-- The first non-nil error among the goroutines' recovered results, models
`errgroup.Wait` (src/app.go:199).  `errgroup` surfaces the temporally first
recorded error; this definition fixes one admissible schedule of that race
— the one observing goroutines in start order — so any result that depends
on which of several failing goroutines is recorded first is
schedule-dependent in the real code. -/
def firstError : List (Option GoErr) → Option GoErr
  | [] => none
  | some e :: _ => some e
  | none :: rest => firstError rest

/-- `RunE` (src/app.go:181-200): no runtimes built means nothing to run; a
single runtime is run inline under RunE's own deferred `errRecover`; several
runtimes run in an errgroup, each goroutine under its own deferred
`errRecover`. -/
def runE (rts : List RuntimeM) : Option GoErr :=
  match rts with
  | [] => errRecover none none
  | [rt] => runRecovered rt.runResult
  | rts => firstError (rts.map fun rt => runRecovered rt.runResult)

/-- `PostRunE` (src/app.go:201-215) for the default app: the only finalizer
is `finalizeOtel` (src/app.go:236), which returns nil for the default no-op
tracer provider, so the collected multiError is empty and PostRunE returns
nil. -/
def postRunE : Option GoErr := none

/-- `App.Run` (src/app.go:126-134) through cobra's sequencing of the command
built by `buildCmd` (src/app.go:138): a `PreRunE` error is returned without
running `RunE`; a `RunE` error is returned without running `PostRunE`;
otherwise `PostRunE`'s result is returned. -/
def appRun (builders : List BuilderM) : Option GoErr :=
  match preRunE builders with
  | (some e, _) => some e
  | (none, rts) =>
    match runE rts with
    | some e => some e
    | none => postRunE

theorem buildRuntimes_append_panicked (pres : List BuilderM) (p : PanicValue)
    (rest : List BuilderM) (h : ∀ b ∈ pres, ∃ rt, b = Outcome.ok (some rt)) :
    buildRuntimes (pres ++ Outcome.panicked p :: rest) = .panicked p := by
  induction pres with
  | nil => rfl
  | cons b pres ih =>
    obtain ⟨rt, hrt⟩ := h b (List.mem_cons_self _ _)
    subst hrt
    have := ih fun b hb => h b (List.mem_cons_of_mem _ hb)
    simp only [List.cons_append, buildRuntimes]
    rw [List.append_eq, this]

theorem buildRuntimes_append_nilRuntime (pres : List BuilderM)
    (rest : List BuilderM) (h : ∀ b ∈ pres, ∃ rt, b = Outcome.ok (some rt)) :
    buildRuntimes (pres ++ Outcome.ok none :: rest) = .err GoErr.nilRuntime := by
  induction pres with
  | nil => rfl
  | cons b pres ih =>
    obtain ⟨rt, hrt⟩ := h b (List.mem_cons_self _ _)
    subst hrt
    have := ih fun b hb => h b (List.mem_cons_of_mem _ hb)
    simp only [List.cons_append, buildRuntimes]
    rw [List.append_eq, this]

theorem buildRuntimes_map_ok (rts : List RuntimeM) :
    buildRuntimes (rts.map fun rt => Outcome.ok (some rt)) = .ok rts := by
  induction rts with
  | nil => rfl
  | cons rt rts ih => simp only [List.map_cons, buildRuntimes, ih]

theorem firstError_append_none (l1 : List (Option GoErr)) (e : GoErr)
    (l2 : List (Option GoErr)) (h : ∀ x ∈ l1, x = none) :
    firstError (l1 ++ some e :: l2) = some e := by
  induction l1 with
  | nil => rfl
  | cons x l1 ih =>
    have hx : x = none := h x (List.mem_cons_self _ _)
    subst hx
    show firstError (l1 ++ some e :: l2) = some e
    exact ih fun y hy => h y (List.mem_cons_of_mem _ hy)

theorem runE_eq_firstError :
    ∀ rts : List RuntimeM, rts ≠ [] →
      runE rts = firstError (rts.map fun rt => runRecovered rt.runResult) := by
  intro rts h
  match rts with
  | [] => exact absurd rfl h
  | [a] =>
    show runRecovered a.runResult = firstError [runRecovered a.runResult]
    cases runRecovered a.runResult with
    | none => rfl
    | some e => rfl
  | a :: b :: rest => rfl

theorem appRun_ok_runtimes (rts : List RuntimeM) :
    appRun (rts.map fun rt => Outcome.ok (some rt))
      = match runE rts with
        | some e => some e
        | none => postRunE := by
  unfold appRun preRunE
  rw [buildRuntimes_map_ok]
  rfl

/-- Claim C9 (amended): a panic raised by a runtime builder or by a
Runtime's `Run` method is recovered by a deferred `errRecover` rather than
crashing the process, and is converted into the panic's error value
verbatim (error payload) or a `panicError` wrapping it (non-error payload).
`App.Run` returns that converted error when the panic occurs in a builder,
and when it occurs in a Runtime's `Run` while every runtime recorded before
it runs without error (in particular always, for a single-runtime app); but
when a sibling runtime's error is recorded first, `App.Run` returns the
sibling's error instead — the panic is still recovered, not crashing. -/
theorem app_run_recovers_panics :
    (∀ (pres : List BuilderM) (p : PanicValue) (rest : List BuilderM),
        (∀ b ∈ pres, ∃ rt, b = Outcome.ok (some rt)) →
        appRun (pres ++ Outcome.panicked p :: rest)
          = errRecover (some p) none) ∧
    (∀ (pres post : List RuntimeM) (rt : RuntimeM) (p : PanicValue),
        rt.runResult = .panicked p →
        (∀ q ∈ pres, runRecovered q.runResult = none) →
        appRun ((pres ++ rt :: post).map fun q => Outcome.ok (some q))
          = errRecover (some p) none) ∧
    (∀ (e : GoErr) (rt : RuntimeM),
        appRun [Outcome.ok (some ⟨Outcome.err e⟩), Outcome.ok (some rt)]
          = some e) ∧
    (∀ e : GoErr, errRecover (some (.errValue e)) none = some e) ∧
    (∀ v : String,
        errRecover (some (.nonErrValue v)) none
          = some (GoErr.panicError v)) := by
  refine ⟨?_, ?_, fun e rt => rfl, fun e => rfl, fun v => rfl⟩
  · intro pres p rest h
    unfold appRun preRunE
    rw [buildRuntimes_append_panicked pres p rest h]
    cases p with
    | errValue e => rfl
    | nonErrValue v => rfl
  · intro pres post rt p hp hpres
    have hnone : ∀ x ∈ pres.map fun q => runRecovered q.runResult, x = none := by
      intro x hx
      obtain ⟨q, hq, hxq⟩ := List.mem_map.1 hx
      rw [← hxq]
      exact hpres q hq
    rw [appRun_ok_runtimes, runE_eq_firstError _ (by simp), List.map_append,
      List.map_cons]
    cases p with
    | errValue e =>
      rw [show runRecovered rt.runResult = some e from by rw [hp]; rfl,
        firstError_append_none _ e _ hnone]
      rfl
    | nonErrValue v =>
      rw [show runRecovered rt.runResult = some (GoErr.panicError v) from by
          rw [hp]; rfl,
        firstError_append_none _ _ _ hnone]
      rfl

/-- Claim C9 counterexample: in a two-runtime app the first runtime returns
the error `named "sibling"` while the second runtime's `Run` panics with the
error value `named "boom"`; the panic is recovered, but under the errgroup
schedule in which the sibling's error is recorded first (the schedule this
model renders), `App.Run` returns the sibling's error — so a Run-method
panic with an error payload is not always returned verbatim. -/
theorem app_run_panic_error_displaced_by_sibling :
    appRun [Outcome.ok (some ⟨Outcome.err (GoErr.named "sibling")⟩),
        Outcome.ok (some ⟨Outcome.panicked
          (PanicValue.errValue (GoErr.named "boom"))⟩)]
      = some (GoErr.named "sibling") ∧
    some (GoErr.named "sibling") ≠ some (GoErr.named "boom") :=
  ⟨rfl, by decide⟩

/-- Claim C9 witness: with one successfully running runtime recorded first
and a second runtime panicking with the non-error value `"hello"`,
`App.Run` returns `panicError "hello"`. -/
theorem app_run_recovers_panics_witness :
    appRun [Outcome.ok (some ⟨Outcome.ok ()⟩),
        Outcome.ok (some ⟨Outcome.panicked (PanicValue.nonErrValue "hello")⟩)]
      = some (GoErr.panicError "hello") := by
  have h := app_run_recovers_panics.2.1 [⟨Outcome.ok ()⟩] []
      ⟨Outcome.panicked (PanicValue.nonErrValue "hello")⟩
      (PanicValue.nonErrValue "hello") rfl
      (by
        intro q hq
        rw [List.mem_singleton.1 hq]
        rfl)
  simpa [errRecover] using h

/-- Claim C10: a runtime builder that returns a nil Runtime together with a
nil error makes `App.Run` return the sentinel `errNilRuntime`; `Run` is
never invoked on the nil runtime (the build loop aborts before any runtime
is run). -/
theorem app_run_nil_runtime_error :
    ∀ (pres rest : List BuilderM),
      (∀ b ∈ pres, ∃ rt, b = Outcome.ok (some rt)) →
      appRun (pres ++ Outcome.ok none :: rest) = some GoErr.nilRuntime := by
  intro pres rest h
  unfold appRun preRunE
  rw [buildRuntimes_append_nilRuntime pres rest h]
  rfl

/-- Claim C10 witness: a `(nil, nil)` builder after one successful builder
makes `App.Run` return `errNilRuntime`. -/
theorem app_run_nil_runtime_error_witness :
    appRun [Outcome.ok (some ⟨Outcome.ok ()⟩), Outcome.ok none]
      = some GoErr.nilRuntime := by
  have h := app_run_nil_runtime_error [Outcome.ok (some ⟨Outcome.ok ()⟩)] []
      (fun b hb => ⟨⟨Outcome.ok ()⟩, by simpa using hb⟩)
  simpa using h

end Bedrock
